import Mathlib

set_option maxHeartbeats 1000000

/-!
Verification development for the Ethics-AI-toolkit core: a shallow embedding
of the audit orchestration pipeline (`src/pipeline.py`), the bias/fairness
engine (`src/bias_detector.py`) and the privacy-risk engine
(`src/privacy_analyzer.py`), together with theorems settling the stated
properties of these components.

Machine reals of the source (Python floats over small integer data) are
modelled as rationals; Python exceptions are modelled by `Option` results
(`none` = the call raises); pandas DataFrames are modelled as a list of
named, dtyped columns of cells.
-/

/-- A pandas cell value: a string or a number (Python floats over the data
appearing here are modelled as rationals). -/
inductive Cell where
  | str (s : String)
  | num (q : ℚ)
  deriving DecidableEq, Repr

/-- The column dtypes the analyzers distinguish: `object` (text), the two
numeric dtypes, and anything else (for example `bool` or `datetime64`). -/
inductive Dtype where
  | object
  | int64
  | float64
  | other
  deriving DecidableEq, Repr

/-- One named DataFrame column with its dtype and cell values. -/
structure Col where
  name : String
  dtype : Dtype
  values : List Cell
  deriving DecidableEq, Repr

/-- A DataFrame: a row count and a list of columns (well-formedness, i.e.
every column having `nrows` cells, is a separate predicate). -/
structure DFrame where
  nrows : ℕ
  cols : List Col
  deriving DecidableEq, Repr

/-- Well-formed DataFrame: every column holds exactly `nrows` cells. -/
def DFrame.WF (df : DFrame) : Prop :=
  ∀ c ∈ df.cols, c.values.length = df.nrows

instance (df : DFrame) : Decidable df.WF := by
  unfold DFrame.WF; infer_instance

/-- Python `str.lower()` (ASCII data). -/
def lowerStr (s : String) : String := ⟨s.data.map Char.toLower⟩

/-- Python `needle in hay` substring test. -/
def strContains (hay needle : String) : Bool := decide (needle.data <:+: hay.data)

/-- Python `' '.join(strs)`. -/
def joinSpace : List String → String
  | [] => ""
  | [s] => s
  | s :: rest => s ++ " " ++ joinSpace rest

/-- Python division: raising `ZeroDivisionError` on a zero divisor is
modelled by `none`. -/
def pydiv (a b : ℚ) : Option ℚ := if b = 0 then none else some (a / b)

/-- Python `str(cell)` (`astype(str)` on a cell). -/
def cellStr : Cell → String
  | .str s => s
  | .num q => toString q

/-- Order-preserving deduplication keeping first occurrences, as pandas
`unique`, Python `dict` key insertion and `drop_duplicates` do.  The `seen`
accumulator holds the values already emitted. -/
def dedupAux {α : Type} [DecidableEq α] : List α → List α → List α
  | [], _ => []
  | x :: rest, seen =>
    if x ∈ seen then dedupAux rest seen else x :: dedupAux rest (x :: seen)

/-- First-occurrence deduplication of a list. -/
def dedupF {α : Type} [DecidableEq α] (l : List α) : List α := dedupAux l []

/-! ### A small regular-expression engine

The privacy engine matches five fixed patterns with `re.findall` under
`re.IGNORECASE`.  The engine below implements exactly the constructs those
patterns use: character classes, concatenation, prioritized alternation
(which also gives the greedy `?`), word boundaries `\b`, counted repetition,
and greedy Kleene iteration of a character class.  `RE.run` returns the list
of possible continuations in backtracking-priority order, so taking the head
of the list reproduces Python's leftmost / greedy first-match semantics. -/

/-- Regular-expression abstract syntax. -/
inductive RE where
  | eps
  | cls (p : Char → Bool)
  | seq (a b : RE)
  | alt (a b : RE)
  | wb
  | starCls (p : Char → Bool)

/-- Python regex word character `\w` over ASCII data. -/
def isWordChar (c : Char) : Bool := c.isAlphanum || c = '_'

/-- Word boundary test between the previously consumed character and the
remaining input. -/
def atBoundary (prev : Option Char) (s : List Char) : Bool :=
  let pw := match prev with
    | some c => isWordChar c
    | none => false
  let nw := match s with
    | c :: _ => isWordChar c
    | [] => false
  pw != nw

/-- All continuations of greedily iterating a character class, longest
first (the priority order of a greedy `*` on a class). -/
def starClsRun (p : Char → Bool) : Option Char → List Char → List (Option Char × List Char)
  | pr, [] => [(pr, [])]
  | pr, c :: rest =>
    (if p c then starClsRun p (some c) rest else []) ++ [(pr, c :: rest)]

/-- Run a regex against the input, returning every possible
`(last consumed char, remaining input)` continuation in priority order. -/
def RE.run : RE → Option Char → List Char → List (Option Char × List Char)
  | .eps, pr, s => [(pr, s)]
  | .cls _, _, [] => []
  | .cls p, _, c :: rest => if p c then [(some c, rest)] else []
  | .seq a b, pr, s => (a.run pr s).flatMap (fun x => b.run x.1 x.2)
  | .alt a b, pr, s => a.run pr s ++ b.run pr s
  | .wb, pr, s => if atBoundary pr s then [(pr, s)] else []
  | .starCls p, pr, s => starClsRun p pr s

/-- Concatenation of a list of regexes. -/
def reSeqs (l : List RE) : RE := l.foldr RE.seq RE.eps

/-- Greedy `r?`. -/
def reOpt (r : RE) : RE := RE.alt r RE.eps

/-- `r{n}`: exactly `n` copies. -/
def reReps (n : ℕ) (r : RE) : RE := reSeqs (List.replicate n r)

/-- Greedy `[p]+`. -/
def rePlus1 (p : Char → Bool) : RE := RE.seq (RE.cls p) (RE.starCls p)

/-- Greedy `[p]{2,}`. -/
def reAtLeast2 (p : Char → Bool) : RE :=
  RE.seq (RE.cls p) (RE.seq (RE.cls p) (RE.starCls p))

/-- `\d` (ASCII data). -/
def digitC (c : Char) : Bool := c.isDigit

/-- The class `[A-Za-z0-9._%+-]` of the email pattern's local part. -/
def emailLocalC (c : Char) : Bool :=
  c.isAlpha || c.isDigit || c = '.' || c = '_' || c = '%' || c = '+' || c = '-'

/-- The class `[A-Za-z0-9.-]` of the email pattern's domain part. -/
def emailDomainC (c : Char) : Bool := c.isAlpha || c.isDigit || c = '.' || c = '-'

/-- The class `[A-Z|a-z]` of the email pattern's top-level domain (the
literal `|` is part of the class in the source). -/
def emailTldC (c : Char) : Bool := c.isAlpha || c = '|'

/-- The class `[-.]` of the phone pattern. -/
def dashDotC (c : Char) : Bool := c = '-' || c = '.'

/-- The class `[-\s]` of the credit-card pattern. -/
def dashSpaceC (c : Char) : Bool :=
  c = '-' || c = ' ' || c = '\t' || c = '\n' || c = '\r'

/-- `\b[A-Za-z0-9._%+-]+@[A-Za-z0-9.-]+\.[A-Z|a-z]{2,}\b`. -/
def emailRE : RE :=
  reSeqs [RE.wb, rePlus1 emailLocalC, RE.cls (fun c => c = '@'),
          rePlus1 emailDomainC, RE.cls (fun c => c = '.'),
          reAtLeast2 emailTldC, RE.wb]

/-- `\b\d{3}[-.]?\d{3}[-.]?\d{4}\b`. -/
def phoneRE : RE :=
  reSeqs [RE.wb, reReps 3 (RE.cls digitC), reOpt (RE.cls dashDotC),
          reReps 3 (RE.cls digitC), reOpt (RE.cls dashDotC),
          reReps 4 (RE.cls digitC), RE.wb]

/-- `\b\d{3}-\d{2}-\d{4}\b`. -/
def ssnRE : RE :=
  reSeqs [RE.wb, reReps 3 (RE.cls digitC), RE.cls (fun c => c = '-'),
          reReps 2 (RE.cls digitC), RE.cls (fun c => c = '-'),
          reReps 4 (RE.cls digitC), RE.wb]

/-- `\b\d{4}[-\s]?\d{4}[-\s]?\d{4}[-\s]?\d{4}\b`. -/
def creditRE : RE :=
  reSeqs [RE.wb, reReps 4 (RE.cls digitC), reOpt (RE.cls dashSpaceC),
          reReps 4 (RE.cls digitC), reOpt (RE.cls dashSpaceC),
          reReps 4 (RE.cls digitC), reOpt (RE.cls dashSpaceC),
          reReps 4 (RE.cls digitC), RE.wb]

/-- `\b\d{5}(-\d{4})?\b`. -/
def zipRE : RE :=
  reSeqs [RE.wb, reReps 5 (RE.cls digitC),
          reOpt (RE.seq (RE.cls (fun c => c = '-')) (reReps 4 (RE.cls digitC))),
          RE.wb]

/-- `re.findall` match counting: scan left to right; at each position take
the backtracking-first match if any and continue after it, otherwise
advance one character.  Fuel is the input length (each step consumes at
least one character). -/
def countAux (r : RE) : ℕ → Option Char → List Char → ℕ
  | 0, _, _ => 0
  | fuel + 1, pr, s =>
    match s with
    | [] => 0
    | c :: rest =>
      match (r.run pr s).head? with
      | some x =>
        if x.2.length < s.length then 1 + countAux r fuel x.1 x.2
        else 1 + countAux r fuel (some c) rest
      | none => countAux r fuel (some c) rest

/-- Number of `re.findall` matches of the pattern in the string. -/
def countMatches (r : RE) (s : String) : ℕ := countAux r s.data.length none s.data

namespace PrivacyAnalyzer

/-- `self.pii_patterns`: the five fixed PII patterns, in source order. -/
def pii_patterns : List (String × RE) :=
  [("email", emailRE), ("phone", phoneRE), ("ssn", ssnRE),
   ("credit_card", creditRE), ("zipcode", zipRE)]

/-- `self.common_names['first_names']`. -/
def first_names : List String :=
  ["john", "mary", "james", "patricia", "robert", "jennifer",
   "michael", "linda", "william", "elizabeth", "david", "barbara"]

/-- `self.common_names['last_names']`. -/
def last_names : List String :=
  ["smith", "johnson", "williams", "brown", "jones", "garcia",
   "miller", "davis", "rodriguez", "martinez", "hernandez"]

/-- `_detect_names`: count how many lexicon first names / last names occur
in the lowercased text, emitting a finding line per non-zero count. -/
def detect_names (text : String) : List String :=
  let tl := lowerStr text
  let firstCount := (first_names.filter (fun n => strContains tl n)).length
  let lastCount := (last_names.filter (fun n => strContains tl n)).length
  (if 0 < firstCount then
    ["potential_first_names: " ++ toString firstCount] else []) ++
  (if 0 < lastCount then
    ["potential_last_names: " ++ toString lastCount] else [])

/-- The per-pattern findings of `_detect_pii` for one concatenated column
text: one line per pattern with a non-zero match count. -/
def piiPatternFindings (text : String) : List String :=
  pii_patterns.filterMap (fun pr =>
    let n := countMatches pr.2 text
    if 0 < n then some (pr.1 ++ ": " ++ toString n ++ " instances") else none)

/-- `_detect_pii`: for every `object` column, join all cell values with a
space, scan against the five patterns, then run the name heuristic; a column
is reported only when it has at least one finding. -/
def detect_pii (df : DFrame) : List (String × List String) :=
  df.cols.filterMap (fun col =>
    if col.dtype = .object then
      let text := joinSpace (col.values.map cellStr)
      let findings := piiPatternFindings text ++ detect_names text
      if findings ≠ [] then some (col.name, findings) else none
    else none)

/-- The fixed quasi-identifier keyword taxonomy, in source order. -/
def potential_qi : List (String × List String) :=
  [("age", ["age", "birth_year", "dob"]),
   ("location", ["zip", "zipcode", "city", "state", "address", "location"]),
   ("demographic", ["gender", "race", "ethnicity", "marital_status"]),
   ("professional", ["job_title", "employer", "salary", "income"]),
   ("temporal", ["date", "timestamp", "time"])]

/-- Does a column name (lowercased) match some keyword of the taxonomy, by
substring containment? -/
def qiNameMatch (name : String) : Bool :=
  (potential_qi.flatMap Prod.snd).any (fun k => strContains (lowerStr name) k)

/-- `_detect_quasi_identifiers`: for each keyword group collect every column
whose lowercased name contains one of the group's keywords, concatenate all
groups' hits, and deduplicate (`list(set(...))`). -/
def detect_quasi_identifiers (df : DFrame) : List String :=
  dedupF (potential_qi.flatMap (fun kw =>
    df.cols.filterMap (fun c =>
      if kw.2.any (fun k => strContains (lowerStr c.name) k)
      then some c.name else none)))

/-- Columns whose dtype is in `['object', 'int64', 'float64']`. -/
def eligibleCol (c : Col) : Bool :=
  c.dtype = .object || c.dtype = .int64 || c.dtype = .float64

/-- Number of distinct values of a column (`nunique`). -/
def nuniq (c : Col) : ℕ := (dedupF c.values).length

/-- The per-column distinct-value ratios of `_analyze_uniqueness`, in column
order; dividing by a zero row count raises, propagated as `none`. -/
def uniquenessPerCol (n : ℕ) : List Col → Option (List (String × ℚ))
  | [] => some []
  | c :: cs =>
    if eligibleCol c then
      match pydiv (nuniq c) n with
      | none => none
      | some r => (uniquenessPerCol n cs).map (fun rest => (c.name, r) :: rest)
    else uniquenessPerCol n cs

/-- The first three eligible columns in original column order
(`important_cols`). -/
def importantCols (df : DFrame) : List Col :=
  (df.cols.filter (fun c => eligibleCol c)).take 3

/-- The dataset's rows projected onto the first three eligible columns. -/
def comboRows (df : DFrame) : List (List Cell) :=
  (List.range df.nrows).map (fun i =>
    (importantCols df).map (fun c => c.values.getD i (Cell.str "")))

/-- The combined-columns uniqueness entry: guarded by `len(df) > 0`,
produced only with at least two eligible columns, and equal to the number of
distinct projected rows (`drop_duplicates`) divided by the row count. -/
def comboEntry (df : DFrame) : List (String × ℚ) :=
  if 0 < df.nrows ∧ 2 ≤ (importantCols df).length then
    [("combination_2-3_cols",
      ((dedupF (comboRows df)).length : ℚ) / (df.nrows : ℚ))]
  else []

/-- `_analyze_uniqueness`: per-column distinct ratios followed by the
combined-columns entry; `none` models the `ZeroDivisionError` raised when
the frame has zero rows but an eligible column. -/
def analyze_uniqueness (df : DFrame) : Option (List (String × ℚ)) :=
  (uniquenessPerCol df.nrows df.cols).map (fun per => per ++ comboEntry df)

/-- `_generate_recommendations`, driven by which findings are non-empty,
always followed by the three general recommendations. -/
def generate_recommendations (pii : List (String × List String))
    (qi : List String) (uniq : List (String × ℚ)) : List String :=
  (if pii ≠ [] then
    ["🔒 Remove or encrypt detected PII before model training",
     "🔒 Consider data anonymization techniques"] else []) ++
  (if qi ≠ [] then
    ["🔒 Apply k-anonymity or l-diversity to quasi-identifiers",
     "🔒 Consider generalization/suppression of sensitive attributes"] else []) ++
  (if (uniq.filter (fun p => (9 : ℚ)/10 < p.2)) ≠ [] then
    ["🔒 Reduce granularity of highly unique columns",
     "🔒 Consider data aggregation or binning"] else []) ++
  ["🔒 Implement differential privacy for model training",
   "🔒 Use secure multi-party computation for sensitive data",
   "🔒 Regular privacy audits and monitoring"]

/-- The result dictionary of `analyze_dataset`. -/
structure PrivacyResult where
  pii_detected : List (String × List String)
  quasi_identifiers : List String
  uniqueness_risk : List (String × ℚ)
  recommendations : List String
  deriving DecidableEq, Repr

/-- `analyze_dataset`: PII detection, quasi-identifier detection, uniqueness
analysis, recommendations; `none` models an exception escaping the call. -/
def analyze_dataset (df : DFrame) : Option PrivacyResult :=
  let pii := detect_pii df
  let qi := detect_quasi_identifiers df
  match analyze_uniqueness df with
  | none => none
  | some uniq => some ⟨pii, qi, uniq, generate_recommendations pii qi uniq⟩

/-- The result dictionary of `analyze_model_outputs` (its
`recommendations` list is never filled by the source). -/
structure OutputsResult where
  pii_in_outputs : List (String × ℕ)
  data_leakage_risk : ℚ
  recommendations : List String
  deriving DecidableEq, Repr

/-- Python `str.split()` restricted to space-separated text. -/
def pysplit (s : String) : List String := (s.splitOn " ").filter (fun t => t ≠ "")

/-- `_check_data_leakage`: fraction of whitespace tokens of the outputs that
equal some cell of a textual training column; the zero-token case is
guarded in the source, so the division cannot raise. -/
def check_data_leakage (outputs : List String) (training : DFrame) : Option ℚ :=
  let trainingText :=
    (training.cols.filter (fun c => c.dtype = .object)).flatMap
      (fun c => c.values.map cellStr)
  let tokens := outputs.flatMap pysplit
  let hits := (tokens.filter (fun t => decide (t ∈ trainingText))).length
  if 0 < tokens.length then pydiv (hits : ℚ) (tokens.length : ℚ) else some 0

/-- `analyze_model_outputs`: scan the joined outputs for the five PII
patterns and, when training data is supplied, compute the leakage ratio. -/
def analyze_model_outputs (outputs : List String) (training : Option DFrame) :
    Option OutputsResult :=
  let combined := joinSpace outputs
  let pii := pii_patterns.filterMap (fun pr =>
    let n := countMatches pr.2 combined
    if 0 < n then some (pr.1, n) else none)
  match training with
  | none => some ⟨pii, 0, []⟩
  | some td => (check_data_leakage outputs td).map (fun r => ⟨pii, r, []⟩)

end PrivacyAnalyzer

namespace BiasDetector

/-- `df[name]`: find a column by name (`find?` mirrors the unique-name
lookup; a missing column raises `KeyError` at the call sites below). -/
def findCol (df : DFrame) (name : String) : Option Col :=
  df.cols.find? (fun c => c.name = name)

/-- Natural number denoted by a digit list (most significant first). -/
def natOfDigits (cs : List Char) : ℕ :=
  cs.foldl (fun n c => n * 10 + (c.toNat - 48)) 0

/-- `pd.to_numeric(..., errors='coerce')` on one cell rendered as text:
parse an optionally signed decimal literal, `none` (NaN) otherwise. -/
def parseNum (s : String) : Option ℚ :=
  let core : List Char → Option ℚ := fun cs =>
    match cs.splitOn '.' with
    | [ip] =>
      if ip ≠ [] ∧ ip.all Char.isDigit then some (natOfDigits ip : ℚ) else none
    | [ip, fp] =>
      if (ip ≠ [] ∨ fp ≠ []) ∧ ip.all Char.isDigit ∧ fp.all Char.isDigit then
        some ((natOfDigits ip : ℚ) + (natOfDigits fp : ℚ) / (10 ^ fp.length : ℚ))
      else none
    | _ => none
  match s.data with
  | [] => none
  | '-' :: rest => (core rest).map Neg.neg
  | cs => core cs

/-- Numeric value of a cell of a numeric-dtype column. -/
def asNum : Cell → ℚ
  | .num q => q
  | .str _ => 0

/-- numpy-style rounding to 4 decimal places (`.round(4)`); ties differ
from numpy only at exact half-ties, which the data here never produces. -/
def round4 (q : ℚ) : ℚ := (⌊q * 10000 + 1/2⌋ : ℚ) / 10000

/-- Resolve the label column to numeric values: numeric dtypes are used
as-is; an `object` column with exactly two first-seen distinct values is
mapped to `{0, 1}`; otherwise the attribute's analysis is skipped
(`none`). -/
def resolveLabels (lc : Col) : Option (List ℚ) :=
  if lc.dtype = .object then
    match dedupF lc.values with
    | [a, _] => some (lc.values.map (fun v => if v = a then 0 else 1))
    | _ => none
  else some (lc.values.map asNum)

/-- One row of the group-statistics table: group key, `total_cases`
(count), `approvals` (sum), `approval_rate` (mean), each `.round(4)`ed. -/
structure GroupStat where
  key : Cell
  total_cases : ℚ
  approvals : ℚ
  approval_rate : ℚ
  deriving DecidableEq, Repr

/-- `groupby(attr)[label].agg(['count', 'sum', 'mean']).round(4)` over the
(attribute value, label) pairs. -/
def groupRows (pairs : List (Cell × ℚ)) : List GroupStat :=
  (dedupF (pairs.map Prod.fst)).map (fun k =>
    let grp := pairs.filter (fun p => p.1 = k)
    let cnt : ℚ := grp.length
    let s : ℚ := (grp.map Prod.snd).sum
    ⟨k, round4 cnt, round4 s, round4 (s / cnt)⟩)

/-- `Series.max()` (`NaN`, i.e. `none`, on an empty series). -/
def listMax : List ℚ → Option ℚ
  | [] => none
  | x :: rest =>
    some (match listMax rest with
      | none => x
      | some m => max x m)

/-- `Series.min()` (`NaN`, i.e. `none`, on an empty series). -/
def listMin : List ℚ → Option ℚ
  | [] => none
  | x :: rest =>
    some (match listMin rest with
      | none => x
      | some m => min x m)

/-- The disparate-impact verdict over the group approval rates: when the
maximal rate is positive, the ratio `min/max` together with the bias flag
`ratio < 0.8`; otherwise nothing is computed and no flag is raised. -/
def dirOf (rates : List ℚ) : Option (ℚ × Bool) :=
  match listMax rates, listMin rates with
  | some M, some m => if 0 < M then some (m / M, decide (m / M < 4/5)) else none
  | _, _ => none

/-- The printed outcome of one attribute's basic analysis: the
group-statistics table and the disparate-impact verdict. -/
structure AttrAnalysis where
  groups : List GroupStat
  disparate_impact : Option (ℚ × Bool)
  deriving DecidableEq, Repr

/-- The attributes the source conditionally coerces to numeric. -/
def numericLikeAttrs : List String := ["age", "income"]

/-- The (attribute value, label) rows used for one attribute's analysis:
for an age/income-like `object` attribute the values are numerically
coerced, dropping unconvertible rows for this attribute only
(`pd.to_numeric(..., errors='coerce')` followed by `dropna`). -/
def attrPairs (ac : Col) (attr : String) (lbls : List ℚ) : List (Cell × ℚ) :=
  if lowerStr attr ∈ numericLikeAttrs ∧ ac.dtype = .object then
    (ac.values.zip lbls).filterMap (fun p =>
      (parseNum (cellStr p.1)).map (fun q => (Cell.num q, p.2)))
  else ac.values.zip lbls

/-- One iteration of `basic_bias_analysis`'s attribute loop: `none` when a
column access raises `KeyError`; `some none` when the label is not
binary-resolvable (explicit skip); otherwise the computed analysis. -/
def analyzeAttr (df : DFrame) (label attr : String) : Option (Option AttrAnalysis) :=
  match findCol df label, findCol df attr with
  | some lc, some ac =>
    match resolveLabels lc with
    | none => some none
    | some lbls =>
      let gs := groupRows (attrPairs ac attr lbls)
      some (some ⟨gs, dirOf (gs.map GroupStat.approval_rate)⟩)
  | _, _ => none

/-- `basic_bias_analysis`: the per-attribute printed analyses in attribute
order; `none` models an exception escaping the loop. -/
def basic_bias_analysis (df : DFrame) (label : String) (attrs : List String) :
    Option (List (String × Option AttrAnalysis)) :=
  match attrs with
  | [] => some []
  | a :: rest =>
    match analyzeAttr df label a with
    | none => none
    | some r => (basic_bias_analysis df label rest).map (fun tail => (a, r) :: tail)

end BiasDetector

/-- A Python value as stored in the audit-result dictionary. -/
inductive Val where
  | vstr (s : String)
  | vnum (q : ℚ)
  | vlist (l : List Val)
  | vdict (l : List (String × Val))
  deriving Repr

mutual

/-- Python `str(v)` of a stored value, to the extent the summary's
`'WARNING' in str(v)` check observes it. -/
def valStr : Val → String
  | .vstr s => s
  | .vnum q => toString q
  | .vlist l => "[" ++ valStrList l ++ "]"
  | .vdict l => "\x7b" ++ valStrDict l ++ "\x7d"

/-- Rendering of a list value's items. -/
def valStrList : List Val → String
  | [] => ""
  | [v] => valStr v
  | v :: rest => valStr v ++ ", " ++ valStrList rest

/-- Rendering of a dictionary value's items. -/
def valStrDict : List (String × Val) → String
  | [] => ""
  | [kv] => kv.1 ++ ": " ++ valStr kv.2
  | kv :: rest => kv.1 ++ ": " ++ valStr kv.2 ++ ", " ++ valStrDict rest

end

/-- Python truthiness of a stored value. -/
def valTruthy : Val → Bool
  | .vstr s => s ≠ ""
  | .vnum q => q ≠ 0
  | .vlist l => ! l.isEmpty
  | .vdict l => ! l.isEmpty

/-- Dictionary lookup (first binding of the key). -/
def lookupKey (l : List (String × Val)) (k : String) : Option Val :=
  match l with
  | [] => none
  | p :: rest => if p.1 = k then some p.2 else lookupKey rest k

/-- Python `k in d` on a dictionary. -/
def hasKey (l : List (String × Val)) (k : String) : Bool :=
  l.any (fun p => p.1 = k)

/-- View a value as a dictionary (the summary only applies this to
dictionary-shaped payloads). -/
def asDict : Val → List (String × Val)
  | .vdict l => l
  | _ => []

/-- View a value as a list of strings (the issue list). -/
def asStrList : Val → List String
  | .vlist l => l.filterMap (fun v =>
      match v with
      | .vstr s => some s
      | _ => none)
  | _ => []

namespace Pipeline

open BiasDetector in
/-- `generate_report`: runs the basic analysis (printing only) and then the
fairlearn analysis; only the latter writes into `self.results`, producing
two entries per protected attribute when the collaborator library is
available and nothing at all when it is not.  The metric values come from
the external library and are abstracted as the `flMetrics` parameter; the
keys follow the source. -/
def generate_report (fairlearnAvailable : Bool) (flMetrics : String → Val × Val)
    (df : DFrame) (label : String) (attrs : List String) :
    Option (List (String × Val)) :=
  match basic_bias_analysis df label attrs with
  | none => none
  | some _ =>
    some (if fairlearnAvailable then
      attrs.flatMap (fun a =>
        [(a ++ "_fairlearn_metrics", (flMetrics a).1),
         (a ++ "_demographic_parity_diff", (flMetrics a).2)])
    else [])

/-- The summary dictionary built by `_generate_summary`. -/
structure Summary where
  timestamp : String
  overall_status : String
  issues_found : List String
  recommendations : List String
  risk_level : String
  deriving DecidableEq, Repr

/-- The bias check of `_generate_summary`: no `'error'` key and some value
whose rendering contains `'WARNING'`. -/
def biasWarningFlag (audit : List (String × Val)) : Bool :=
  let bias_results := asDict ((lookupKey audit "bias_analysis").getD (.vdict []))
  (! hasKey bias_results "error") &&
    bias_results.any (fun p => strContains (valStr p.2) "WARNING")

/-- The privacy check of `_generate_summary`:
`privacy_results.get('pii_detected')` is truthy. -/
def piiFlag (audit : List (String × Val)) : Bool :=
  let privacy_results := asDict ((lookupKey audit "privacy_analysis").getD (.vdict []))
  match lookupKey privacy_results "pii_detected" with
  | some v => valTruthy v
  | none => false

/-- The hallucination rate read by `_generate_summary`
(`.get('summary', {}).get('hallucination_rate', 0)`). -/
def hallRateOf (audit : List (String × Val)) : ℚ :=
  let hall := asDict ((lookupKey audit "hallucination_analysis").getD (.vdict []))
  match lookupKey (asDict ((lookupKey hall "summary").getD (.vdict []))) "hallucination_rate" with
  | some (.vnum q) => q
  | _ => 0

/-- `_generate_summary`: starting from `PASSED`/`LOW`, apply the bias,
privacy and hallucination checks in order, then attach the fixed
recommendation list chosen by whether any issue was found.  The privacy
check assigns `risk_level = 'MEDIUM'` unconditionally. -/
def generate_summary (audit : List (String × Val)) (now : String) : Summary :=
  let s0 : Summary := ⟨now, "PASSED", [], [], "LOW"⟩
  let s1 := if biasWarningFlag audit then
      { s0 with issues_found := s0.issues_found ++ ["Potential bias detected"],
                overall_status := "FAILED", risk_level := "HIGH" }
    else s0
  let s2 := if piiFlag audit then
      { s1 with issues_found := s1.issues_found ++ ["PII detected in dataset"],
                risk_level := "MEDIUM" }
    else s1
  let s3 := if hallRateOf audit > 1/5 then
      { s2 with issues_found := s2.issues_found ++ ["High hallucination rate detected"],
                overall_status := "FAILED" }
    else s2
  { s3 with recommendations :=
      if s3.issues_found ≠ [] then
        ["Review and address identified bias patterns",
         "Implement data anonymization for PII",
         "Add fact-checking mechanisms for model outputs",
         "Consider retraining models with bias mitigation techniques"]
      else
        ["Continue monitoring for emerging ethical issues",
         "Regular re-auditing recommended",
         "Consider implementing continuous monitoring"] }

/-- A stage outcome recorded into the audit dictionary: the payload on
success, `{'error': str(e)}` when the stage raised. -/
def stageVal : Except String (List (String × Val)) → Val
  | .ok p => .vdict p
  | .error e => .vdict [("error", .vstr e)]

/-- The summary dictionary as stored into the audit result. -/
def summaryVal (s : Summary) : Val :=
  .vdict [("timestamp", .vstr s.timestamp),
          ("overall_status", .vstr s.overall_status),
          ("issues_found", .vlist (s.issues_found.map .vstr)),
          ("recommendations", .vlist (s.recommendations.map .vstr)),
          ("risk_level", .vstr s.risk_level)]

/-- Dictionary assignment `d[k] = v` on the association list. -/
def setKey (k : String) (v : Val) : List (String × Val) → List (String × Val)
  | [] => [(k, v)]
  | p :: rest => if p.1 = k then (k, v) :: rest else p :: setKey k v rest

/-- `run_full_audit`: initialize the result with all six keys, record each
of the four analysis stages independently (a raising stage contributes an
error marker and never halts the sequence; hallucination is skipped without
prompts), then derive and store the summary.  The stages' own computations
are the `Except` parameters. -/
def run_full_audit (dsInfo : Val)
    (bias expl priv : Except String (List (String × Val)))
    (prompts : List String)
    (hall : Except String (List (String × Val)))
    (now : String) : List (String × Val) :=
  let base := [("dataset_info", dsInfo),
               ("bias_analysis", Val.vdict []),
               ("explainability_analysis", Val.vdict []),
               ("privacy_analysis", Val.vdict []),
               ("hallucination_analysis", Val.vdict []),
               ("summary", Val.vdict [])]
  let a1 := setKey "bias_analysis" (stageVal bias) base
  let a2 := setKey "explainability_analysis" (stageVal expl) a1
  let a3 := setKey "privacy_analysis" (stageVal priv) a2
  let a4 := setKey "hallucination_analysis"
      (if prompts = [] then Val.vdict [("skipped", Val.vstr "No test prompts provided")]
       else stageVal hall) a3
  setKey "summary" (summaryVal (generate_summary a4 now)) a4

/-- The per-issue deduction of `generate_compliance_score`: keyword match
on the lowercased issue text, first match wins. -/
def issueWeight (issue : String) : ℚ :=
  if strContains (lowerStr issue) "bias" then 40
  else if strContains (lowerStr issue) "pii" then 20
  else if strContains (lowerStr issue) "hallucination" then 30
  else 0

/-- The scoring loop of `generate_compliance_score`: start at 100, deduct
per issue, floor the final value at 0. -/
def complianceFromIssues (issues : List String) : ℚ :=
  max 0 (issues.foldl (fun s i => s - issueWeight i) 100)

/-- `generate_compliance_score`: 0 on an empty results dictionary,
otherwise the scoring loop over the stored summary's issue list. -/
def generate_compliance_score (results : List (String × Val)) : ℚ :=
  if results.isEmpty then 0
  else
    complianceFromIssues (asStrList
      ((lookupKey (asDict ((lookupKey results "summary").getD (.vdict []))) "issues_found").getD
        (.vlist [])))

end Pipeline

/-- The label column resolves to binary 0/1 values: a numeric column whose
values are all 0 or 1, or an `object` column with exactly two distinct
values (which the source maps to `{0, 1}` by first-seen order). -/
def BiasDetector.labelBinary01 (lc : Col) : Bool :=
  if lc.dtype = .object then (dedupF lc.values).length == 2
  else lc.values.all (fun v => (BiasDetector.asNum v == 0) || (BiasDetector.asNum v == 1))

/-- Number of occurrences of `a` in `l`. -/
def countEq {α : Type} [DecidableEq α] (l : List α) (a : α) : ℕ :=
  (l.filter (fun x => x = a)).length

/-- Modelled from the spec's words, for comparison with the source's
combined-uniqueness value: the fraction of the dataset's rows whose
combination of values over the first three eligible columns is unique
across the dataset. -/
def specUniqueRowFraction (df : DFrame) : ℚ :=
  let rows := PrivacyAnalyzer.comboRows df
  ((rows.filter (fun r => countEq rows r = 1)).length : ℚ) / (df.nrows : ℚ)

/-! ### Concrete inputs used by counterexamples and witnesses -/

/-- A zero-row DataFrame with one textual column. -/
def dfZeroRows : DFrame := ⟨0, [⟨"name", .object, []⟩]⟩

/-- A DataFrame whose only column is named `age` but has a non-analyzed
dtype (for example `bool`). -/
def dfAgeOther : DFrame :=
  ⟨2, [⟨"age", .other, [.num 0, .num 1]⟩]⟩

/-- A small well-formed DataFrame with a numeric and a textual column. -/
def dfSmall : DFrame :=
  ⟨2, [⟨"id", .int64, [.num 1, .num 2]⟩, ⟨"note", .object, [.str "ok", .str "ok"]⟩]⟩

/-- A DataFrame with a single column named `message` (whose name contains
the keyword `age`). -/
def dfMessage : DFrame :=
  ⟨1, [⟨"message", .object, [.str "hello"]⟩]⟩

/-- Bias-audit DataFrame: binary numeric label, one protected attribute
with group rates 2/5 and 1/2, so the disparate-impact ratio is exactly
0.8. -/
def dfBias : DFrame :=
  ⟨7, [⟨"approved", .int64, [.num 1, .num 0, .num 0, .num 1, .num 0, .num 1, .num 0]⟩,
       ⟨"gender", .object, [.str "a", .str "a", .str "a", .str "a", .str "a",
                            .str "b", .str "b"]⟩]⟩

/-- The label column of `dfBias`. -/
def lcBias : Col := ⟨"approved", .int64, [.num 1, .num 0, .num 0, .num 1, .num 0, .num 1, .num 0]⟩

/-- Uniqueness DataFrame: three rows over two textual columns where one
projected row combination repeats. -/
def dfCombo : DFrame :=
  ⟨3, [⟨"c1", .object, [.str "a", .str "a", .str "b"]⟩,
       ⟨"c2", .object, [.str "x", .str "x", .str "y"]⟩]⟩

/-- A column content on which the credit-card pattern matches across the
row-join separator. -/
def rowsCredit1 : List Cell := [.str "1111 2222", .str "3333 4444", .str "x"]

/-- A permutation of `rowsCredit1` (last two rows swapped). -/
def rowsCredit2 : List Cell := [.str "1111 2222", .str "x", .str "3333 4444"]

/-- An audit dictionary whose bias payload carries a warning and whose
privacy payload reports PII findings. -/
def auditBiasPii : List (String × Val) :=
  [("bias_analysis", .vdict [("gender_stats", .vstr "⚠️  WARNING: Potential bias detected! (Ratio < 0.8)")]),
   ("privacy_analysis", .vdict [("pii_detected",
      .vdict [("name", .vlist [.vstr "email: 1 instances"])])]),
   ("hallucination_analysis", .vdict [])]

/-- An audit dictionary with empty stage payloads. -/
def auditQuiet : List (String × Val) :=
  [("bias_analysis", .vdict []), ("privacy_analysis", .vdict []),
   ("hallucination_analysis", .vdict [])]

/-- The basic bias analysis of `dfBias`'s protected attribute, written
out: per-group statistics and the disparate-impact verdict. -/
def biasAttrExpected : BiasDetector.AttrAnalysis :=
  ⟨[⟨.str "a", 5, 2, 2/5⟩, ⟨.str "b", 2, 1, 1/2⟩], some (4/5, false)⟩

/-- The (attribute value, label) pairs of `dfBias`. -/
def pairsB : List (Cell × ℚ) :=
  [(.str "a", 1), (.str "a", 0), (.str "a", 0), (.str "a", 1), (.str "a", 0),
   (.str "b", 1), (.str "b", 0)]

/-! ### Helper lemmas -/

theorem mem_dedupAux {α : Type} [DecidableEq α] (l seen : List α) (a : α) :
    a ∈ dedupAux l seen ↔ a ∈ l ∧ a ∉ seen := by
  induction l generalizing seen with
  | nil => simp [dedupAux]
  | cons x rest ih =>
    by_cases hx : x ∈ seen
    · simp only [dedupAux, if_pos hx, ih]
      constructor
      · rintro ⟨h1, h2⟩; exact ⟨List.mem_cons_of_mem _ h1, h2⟩
      · rintro ⟨h1, h2⟩
        rcases List.mem_cons.mp h1 with rfl | h1
        · exact absurd hx h2
        · exact ⟨h1, h2⟩
    · simp only [dedupAux, if_neg hx, List.mem_cons, ih, List.mem_cons, not_or] at *
      constructor
      · rintro (rfl | ⟨h1, h2, h3⟩)
        · exact ⟨Or.inl rfl, hx⟩
        · exact ⟨Or.inr h1, h3⟩
      · rintro ⟨rfl | h1, h2⟩
        · exact Or.inl rfl
        · by_cases hax : a = x
          · exact Or.inl hax
          · exact Or.inr ⟨h1, hax, h2⟩

theorem mem_dedupF {α : Type} [DecidableEq α] (l : List α) (a : α) :
    a ∈ dedupF l ↔ a ∈ l := by
  simp [dedupF, mem_dedupAux]

theorem nodup_dedupAux {α : Type} [DecidableEq α] (l seen : List α) :
    (dedupAux l seen).Nodup := by
  induction l generalizing seen with
  | nil => simp [dedupAux]
  | cons x rest ih =>
    by_cases hx : x ∈ seen
    · simpa [dedupAux, if_pos hx] using ih seen
    · simp only [dedupAux, if_neg hx]
      refine List.nodup_cons.mpr ⟨?_, ih (x :: seen)⟩
      intro hmem
      exact ((mem_dedupAux rest (x :: seen) x).mp hmem).2 (List.mem_cons_self x seen)

theorem nodup_dedupF {α : Type} [DecidableEq α] (l : List α) : (dedupF l).Nodup :=
  nodup_dedupAux l []

theorem foldl_sub_weight (w : String → ℚ) (issues : List String) (a : ℚ) :
    issues.foldl (fun s i => s - w i) a = a - (issues.map w).sum := by
  induction issues generalizing a with
  | nil => simp
  | cons i rest ih => simp [List.foldl_cons, ih]; ring

theorem listMax_mem {l : List ℚ} {m : ℚ} (h : BiasDetector.listMax l = some m) :
    m ∈ l := by
  induction l generalizing m with
  | nil => simp [BiasDetector.listMax] at h
  | cons x rest ih =>
    rw [BiasDetector.listMax] at h
    rcases hr : BiasDetector.listMax rest with _ | m'
    · rw [hr] at h
      simp only [Option.some.injEq] at h
      exact h ▸ List.mem_cons_self x rest
    · rw [hr] at h
      simp only [Option.some.injEq] at h
      rcases le_total x m' with hle | hle
      · rw [max_eq_right hle] at h
        exact List.mem_cons_of_mem x (h ▸ ih hr)
      · rw [max_eq_left hle] at h
        exact h ▸ List.mem_cons_self x rest

theorem listMin_mem {l : List ℚ} {m : ℚ} (h : BiasDetector.listMin l = some m) :
    m ∈ l := by
  induction l generalizing m with
  | nil => simp [BiasDetector.listMin] at h
  | cons x rest ih =>
    rw [BiasDetector.listMin] at h
    rcases hr : BiasDetector.listMin rest with _ | m'
    · rw [hr] at h
      simp only [Option.some.injEq] at h
      exact h ▸ List.mem_cons_self x rest
    · rw [hr] at h
      simp only [Option.some.injEq] at h
      rcases le_total x m' with hle | hle
      · rw [min_eq_left hle] at h
        exact h ▸ List.mem_cons_self x rest
      · rw [min_eq_right hle] at h
        exact List.mem_cons_of_mem x (h ▸ ih hr)

theorem listMin_eq_none {l : List ℚ} : BiasDetector.listMin l = none ↔ l = [] := by
  cases l with
  | nil => simp [BiasDetector.listMin]
  | cons x rest => simp [BiasDetector.listMin]

theorem listMin_le {l : List ℚ} {m : ℚ} (h : BiasDetector.listMin l = some m) :
    ∀ x ∈ l, m ≤ x := by
  induction l generalizing m with
  | nil => intro x hx; simp at hx
  | cons a rest ih =>
    intro x hx
    rw [BiasDetector.listMin] at h
    simp only [Option.some.injEq] at h
    rcases hr : BiasDetector.listMin rest with _ | m'
    · rw [hr] at h
      have hnil : rest = [] := listMin_eq_none.mp hr
      subst hnil
      rcases List.mem_cons.mp hx with rfl | hx'
      · exact le_of_eq h.symm
      · simp at hx'
    · rw [hr] at h
      rcases List.mem_cons.mp hx with hxa | hx'
      · subst hxa
        exact h ▸ min_le_left _ m'
      · exact le_trans (h ▸ min_le_right _ m') (ih hr x hx')

theorem listMax_isSome_of_ne_nil {l : List ℚ} (h : l ≠ []) :
    (BiasDetector.listMax l).isSome = true := by
  cases l with
  | nil => exact absurd rfl h
  | cons x rest => simp [BiasDetector.listMax]

theorem listMin_isSome_of_ne_nil {l : List ℚ} (h : l ≠ []) :
    (BiasDetector.listMin l).isSome = true := by
  cases l with
  | nil => exact absurd rfl h
  | cons x rest => simp [BiasDetector.listMin]

theorem round4_nonneg {q : ℚ} (h : 0 ≤ q) : 0 ≤ BiasDetector.round4 q := by
  unfold BiasDetector.round4
  have h1 : (0 : ℚ) ≤ q * 10000 + 1/2 := by positivity
  have h2 : (0 : ℤ) ≤ ⌊q * 10000 + 1/2⌋ := Int.floor_nonneg.mpr h1
  have h3 : (0 : ℚ) ≤ (⌊q * 10000 + 1/2⌋ : ℚ) := by exact_mod_cast h2
  positivity

theorem round4_le_one {q : ℚ} (h : q ≤ 1) : BiasDetector.round4 q ≤ 1 := by
  unfold BiasDetector.round4
  have h1 : q * 10000 + 1/2 ≤ 10000 + 1/2 := by linarith
  have h2 : ⌊q * 10000 + 1/2⌋ ≤ ⌊(10000 : ℚ) + 1/2⌋ := Int.floor_mono h1
  have h3 : ⌊(10000 : ℚ) + 1/2⌋ = 10000 := by
    rw [Int.floor_eq_iff]
    constructor <;> norm_num
  rw [h3] at h2
  have h4 : (⌊q * 10000 + 1/2⌋ : ℚ) ≤ 10000 := by exact_mod_cast h2
  linarith

theorem asStrList_map (l : List String) :
    asStrList (.vlist (l.map .vstr)) = l := by
  induction l with
  | nil => rfl
  | cons s rest ih => simpa [asStrList, List.filterMap_cons] using ih

/-! ### C6 -/

/-- C6: the compliance score is 100 minus keyword-selected per-issue
weights (bias 40, pii 20, hallucination 30), floored at 0; zero issues give
exactly 100; the two-issue example gives exactly 40; the score is never
negative; and the score of a stored summary is the scoring loop applied to
its issue list. -/
theorem C6_compliance_score :
    Pipeline.complianceFromIssues [] = 100 ∧
    Pipeline.complianceFromIssues
      ["Potential bias detected", "PII detected in dataset"] = 40 ∧
    (∀ issues, Pipeline.complianceFromIssues issues =
      max 0 (100 - (issues.map Pipeline.issueWeight).sum)) ∧
    (∀ issues, 0 ≤ Pipeline.complianceFromIssues issues) ∧
    (∀ s : Pipeline.Summary,
      Pipeline.generate_compliance_score [("summary", Pipeline.summaryVal s)] =
        Pipeline.complianceFromIssues s.issues_found) := by
  have h3 : ∀ issues, Pipeline.complianceFromIssues issues =
      max 0 (100 - (issues.map Pipeline.issueWeight).sum) := by
    intro issues
    unfold Pipeline.complianceFromIssues
    rw [foldl_sub_weight]
  have w1 : Pipeline.issueWeight "Potential bias detected" = 40 := by
    unfold Pipeline.issueWeight
    rw [if_pos (by decide)]
  have w2 : Pipeline.issueWeight "PII detected in dataset" = 20 := by
    unfold Pipeline.issueWeight
    rw [if_neg (by decide), if_pos (by decide)]
  refine ⟨?_, ?_, h3, ?_, ?_⟩
  · rw [h3]
    simp
  · rw [h3]
    simp only [List.map_cons, List.map_nil, List.sum_cons, List.sum_nil, w1, w2]
    norm_num
  · intro issues
    exact le_max_left 0 _
  · intro s
    have hred : Pipeline.generate_compliance_score [("summary", Pipeline.summaryVal s)] =
        Pipeline.complianceFromIssues (asStrList (Val.vlist (s.issues_found.map Val.vstr))) := rfl
    rw [hred, asStrList_map]

/-! ### C10 -/

/-- C10: quasi-identifier detection flags exactly the columns whose
lowercased name contains some taxonomy keyword as a substring, independent
of content; the returned list is deduplicated; and the column name
`message` (containing the keyword `age`) is flagged. -/
theorem C10_quasi_identifiers :
    (∀ (df : DFrame) (n : String),
      n ∈ PrivacyAnalyzer.detect_quasi_identifiers df ↔
        ((∃ c ∈ df.cols, c.name = n) ∧ PrivacyAnalyzer.qiNameMatch n = true)) ∧
    (∀ df : DFrame, (PrivacyAnalyzer.detect_quasi_identifiers df).Nodup) ∧
    PrivacyAnalyzer.detect_quasi_identifiers dfMessage = ["message"] := by
  refine ⟨?_, fun df => nodup_dedupF _, by decide⟩
  intro df n
  unfold PrivacyAnalyzer.detect_quasi_identifiers PrivacyAnalyzer.qiNameMatch
  rw [mem_dedupF, List.mem_flatMap]
  constructor
  · rintro ⟨kw, hkw, hmem⟩
    rw [List.mem_filterMap] at hmem
    obtain ⟨c, hc, hif⟩ := hmem
    by_cases hcond : (kw.2.any fun k => strContains (lowerStr c.name) k) = true
    · rw [if_pos hcond] at hif
      injection hif with hn
      subst hn
      obtain ⟨k, hk, hkc⟩ := List.any_eq_true.mp hcond
      exact ⟨⟨c, hc, rfl⟩, List.any_eq_true.mpr
        ⟨k, List.mem_flatMap.mpr ⟨kw, hkw, hk⟩, hkc⟩⟩
    · rw [if_neg hcond] at hif
      cases hif
  · rintro ⟨⟨c, hc, rfl⟩, hmatch⟩
    obtain ⟨k, hkmem, hkc⟩ := List.any_eq_true.mp hmatch
    obtain ⟨kw, hkw, hk⟩ := List.mem_flatMap.mp hkmem
    refine ⟨kw, hkw, ?_⟩
    rw [List.mem_filterMap]
    exact ⟨c, hc, by rw [if_pos (List.any_eq_true.mpr ⟨k, hk, hkc⟩)]⟩

/-! ### C1 -/

/-- C1 counterexample: an audit whose bias payload carries a warning (risk
set HIGH) and whose privacy payload has non-empty PII findings ends with
risk tier `MEDIUM`, not `HIGH` — the privacy check overwrites the tier. -/
theorem C1_counterexample :
    Pipeline.biasWarningFlag auditBiasPii = true ∧
    Pipeline.piiFlag auditBiasPii = true ∧
    (Pipeline.generate_summary auditBiasPii "2024-01-01T00:00:00").risk_level ≠ "HIGH" := by
  refine ⟨by decide, by decide, ?_⟩
  have hb : Pipeline.biasWarningFlag auditBiasPii = true := by decide
  have hp : Pipeline.piiFlag auditBiasPii = true := by decide
  unfold Pipeline.generate_summary
  simp only [hb, hp, if_pos]
  split <;> simp

/-- C1 (amended): when the privacy payload reports PII findings the summary
appends an issue and sets the risk tier to `MEDIUM` unconditionally,
overwriting a `HIGH` set by the bias check; so for an audit with both a
bias warning and PII findings the final tier is `MEDIUM` (status stays
`FAILED` and both issues are recorded). -/
theorem C1_amended (audit : List (String × Val)) (now : String)
    (hb : Pipeline.biasWarningFlag audit = true)
    (hp : Pipeline.piiFlag audit = true) :
    (Pipeline.generate_summary audit now).risk_level = "MEDIUM" ∧
    (Pipeline.generate_summary audit now).overall_status = "FAILED" ∧
    "Potential bias detected" ∈ (Pipeline.generate_summary audit now).issues_found ∧
    "PII detected in dataset" ∈ (Pipeline.generate_summary audit now).issues_found := by
  unfold Pipeline.generate_summary
  simp only [hb, hp, if_pos]
  split <;> simp

/-- C1 witness: the amended statement at a concrete audit. -/
theorem C1_amended_witness :
    (Pipeline.generate_summary auditBiasPii "t").risk_level = "MEDIUM" ∧
    (Pipeline.generate_summary auditBiasPii "t").overall_status = "FAILED" ∧
    "Potential bias detected" ∈ (Pipeline.generate_summary auditBiasPii "t").issues_found ∧
    "PII detected in dataset" ∈ (Pipeline.generate_summary auditBiasPii "t").issues_found :=
  C1_amended auditBiasPii "t" (by decide) (by decide)

/-! ### C2 -/

theorem generate_summary_timestamp (audit : List (String × Val)) (t : String) :
    (Pipeline.generate_summary audit t).timestamp = t := by
  unfold Pipeline.generate_summary
  split <;> split <;> split <;> rfl

/-- C2 counterexample: the summary embeds the wall-clock timestamp, so two
runs over identical inputs at different instants produce different Summary
objects. -/
theorem C2_counterexample :
    Pipeline.generate_summary auditQuiet "2024-01-01T00:00:00" ≠
      Pipeline.generate_summary auditQuiet "2024-01-01T00:00:01" := by
  intro h
  have ht := congrArg Pipeline.Summary.timestamp h
  rw [generate_summary_timestamp, generate_summary_timestamp] at ht
  exact absurd ht (by decide)

/-- C2 (amended): two summary derivations over the same audit agree on
every field except the timestamp, and yield identical compliance scores. -/
theorem C2_amended (audit : List (String × Val)) (t1 t2 : String) :
    (Pipeline.generate_summary audit t1).overall_status =
      (Pipeline.generate_summary audit t2).overall_status ∧
    (Pipeline.generate_summary audit t1).issues_found =
      (Pipeline.generate_summary audit t2).issues_found ∧
    (Pipeline.generate_summary audit t1).recommendations =
      (Pipeline.generate_summary audit t2).recommendations ∧
    (Pipeline.generate_summary audit t1).risk_level =
      (Pipeline.generate_summary audit t2).risk_level ∧
    Pipeline.complianceFromIssues (Pipeline.generate_summary audit t1).issues_found =
      Pipeline.complianceFromIssues (Pipeline.generate_summary audit t2).issues_found := by
  unfold Pipeline.generate_summary
  split <;> split <;> split <;> simp

/-! ### C5 -/

theorem groupRows_pairsB_eval :
    BiasDetector.groupRows pairsB =
      [⟨.str "a", 5, 2, 2/5⟩, ⟨.str "b", 2, 1, 1/2⟩] := by
  simp [BiasDetector.groupRows, dedupF, dedupAux, pairsB, BiasDetector.round4]
  norm_num

theorem dirOf_pairsB_eval :
    BiasDetector.dirOf [2/5, 1/2] = some (4/5, false) := by
  simp [BiasDetector.dirOf, BiasDetector.listMax, BiasDetector.listMin]
  norm_num

theorem analyzeAttr_dfBias_eval :
    BiasDetector.analyzeAttr dfBias "approved" "gender" = some (some biasAttrExpected) := by
  have h1 : BiasDetector.analyzeAttr dfBias "approved" "gender" =
      some (some ⟨BiasDetector.groupRows pairsB,
        BiasDetector.dirOf ((BiasDetector.groupRows pairsB).map
          BiasDetector.GroupStat.approval_rate)⟩) := rfl
  rw [h1, groupRows_pairsB_eval]
  simp only [List.map_cons, List.map_nil]
  rw [show [(⟨.str "a", 5, 2, 2/5⟩ : BiasDetector.GroupStat).approval_rate,
      (⟨.str "b", 2, 1, 1/2⟩ : BiasDetector.GroupStat).approval_rate] = [(2:ℚ)/5, 1/2] from rfl]
  rw [dirOf_pairsB_eval]
  rfl

theorem basic_bias_dfBias_eval :
    BiasDetector.basic_bias_analysis dfBias "approved" ["gender"] =
      some [("gender", some biasAttrExpected)] := by
  have h : BiasDetector.basic_bias_analysis dfBias "approved" ["gender"] =
      (BiasDetector.analyzeAttr dfBias "approved" "gender").bind
        (fun r => some [("gender", r)]) := rfl
  rw [h, analyzeAttr_dfBias_eval]
  rfl

theorem basic_bias_analysis_keys (df : DFrame) (label : String) :
    ∀ (attrs : List String) (res : List (String × Option BiasDetector.AttrAnalysis)),
      BiasDetector.basic_bias_analysis df label attrs = some res →
      res.map Prod.fst = attrs := by
  intro attrs
  induction attrs with
  | nil =>
    intro res h
    rw [BiasDetector.basic_bias_analysis] at h
    injection h with h
    subst h
    rfl
  | cons a rest ih =>
    intro res h
    rw [BiasDetector.basic_bias_analysis] at h
    cases ha : BiasDetector.analyzeAttr df label a with
    | none => rw [ha] at h; cases h
    | some r =>
      rw [ha] at h
      cases hrest : BiasDetector.basic_bias_analysis df label rest with
      | none => rw [hrest] at h; cases h
      | some tail =>
        rw [hrest] at h
        have hres : (a, r) :: tail = res := by simpa using h
        subst hres
        simp [ih tail hrest]

/-- C5 counterexample: on a dataset whose basic analysis yields a full
group-statistics table and disparate-impact verdict for the protected
attribute, the report's result payload is nevertheless empty (fairlearn
unavailable): the Group Statistics Record table and Disparate Impact Ratio
are not part of the payload. -/
theorem C5_counterexample :
    Pipeline.generate_report false (fun _ => (Val.vstr "", Val.vstr ""))
      dfBias "approved" ["gender"] = some [] ∧
    BiasDetector.basic_bias_analysis dfBias "approved" ["gender"] =
      some [("gender", some biasAttrExpected)] := by
  exact ⟨rfl, basic_bias_dfBias_eval⟩

/-- C5 (amended): the engine computes (and prints) a Group Statistics
Record table and Disparate Impact Ratio per protected attribute — the basic
analysis yields one entry per attribute — but `generate_report`'s returned
payload contains none of them: it carries exactly the two fairlearn-derived
entries per attribute when the collaborator library is available, and is
empty when it is not. -/
theorem C5_amended (df : DFrame) (label : String) (attrs : List String)
    (basicRes : List (String × Option BiasDetector.AttrAnalysis))
    (hbasic : BiasDetector.basic_bias_analysis df label attrs = some basicRes)
    (avail : Bool) (flm : String → Val × Val) :
    Pipeline.generate_report avail flm df label attrs =
      some (if avail then
        attrs.flatMap (fun a =>
          [(a ++ "_fairlearn_metrics", (flm a).1),
           (a ++ "_demographic_parity_diff", (flm a).2)])
      else []) ∧
    basicRes.map Prod.fst = attrs := by
  constructor
  · unfold Pipeline.generate_report
    rw [hbasic]
  · exact basic_bias_analysis_keys df label attrs basicRes hbasic

/-- C5 witness: the amended statement at a concrete dataset, in the
fairlearn-available configuration. -/
theorem C5_amended_witness :
    Pipeline.generate_report true (fun _ => (Val.vstr "m", Val.vstr "d"))
      dfBias "approved" ["gender"] =
      some [("gender_fairlearn_metrics", Val.vstr "m"),
            ("gender_demographic_parity_diff", Val.vstr "d")] ∧
    ([("gender", some biasAttrExpected)].map Prod.fst : List String) = ["gender"] := by
  have h := C5_amended dfBias "approved" ["gender"]
    [("gender", some biasAttrExpected)] basic_bias_dfBias_eval true
    (fun _ => (Val.vstr "m", Val.vstr "d"))
  exact ⟨by rw [h.1]; rfl, h.2⟩

/-! ### C8 -/

/-- C8: the orchestrator's audit result always carries all six keys: each
analysis entry records its own stage's outcome (so a stage's failure never
affects another stage's entry), a raising stage is recorded as an
`{'error': message}` marker, the hallucination stage is skipped without
prompts, and a derived summary is always present. -/
theorem C8_stage_isolation (dsInfo : Val)
    (bias expl priv : Except String (List (String × Val)))
    (prompts : List String) (hall : Except String (List (String × Val)))
    (now : String) :
    lookupKey (Pipeline.run_full_audit dsInfo bias expl priv prompts hall now)
      "dataset_info" = some dsInfo ∧
    lookupKey (Pipeline.run_full_audit dsInfo bias expl priv prompts hall now)
      "bias_analysis" = some (Pipeline.stageVal bias) ∧
    lookupKey (Pipeline.run_full_audit dsInfo bias expl priv prompts hall now)
      "explainability_analysis" = some (Pipeline.stageVal expl) ∧
    lookupKey (Pipeline.run_full_audit dsInfo bias expl priv prompts hall now)
      "privacy_analysis" = some (Pipeline.stageVal priv) ∧
    lookupKey (Pipeline.run_full_audit dsInfo bias expl priv prompts hall now)
      "hallucination_analysis" =
      some (if prompts = [] then
        Val.vdict [("skipped", Val.vstr "No test prompts provided")]
      else Pipeline.stageVal hall) ∧
    (∃ s : Pipeline.Summary,
      lookupKey (Pipeline.run_full_audit dsInfo bias expl priv prompts hall now)
        "summary" = some (Pipeline.summaryVal s)) ∧
    (∀ e, bias = .error e →
      lookupKey (Pipeline.run_full_audit dsInfo bias expl priv prompts hall now)
        "bias_analysis" = some (.vdict [("error", .vstr e)])) := by
  refine ⟨rfl, rfl, rfl, rfl, rfl, ⟨_, rfl⟩, ?_⟩
  intro e he
  rw [he]
  rfl

/-- C8 witness: a concrete audit whose bias stage raises still records the
error marker for that stage. -/
theorem C8_stage_isolation_witness :
    lookupKey (Pipeline.run_full_audit (Val.vstr "info") (.error "boom")
        (.ok []) (.ok []) [] (.ok []) "t") "bias_analysis" =
      some (.vdict [("error", .vstr "boom")]) :=
  (C8_stage_isolation (Val.vstr "info") (.error "boom") (.ok []) (.ok [])
    [] (.ok []) "t").2.2.2.2.2.2 "boom" rfl

/-! ### C4 -/

theorem resolveLabels_binary {lc : Col} (hbin : BiasDetector.labelBinary01 lc = true)
    {lbls : List ℚ} (h : BiasDetector.resolveLabels lc = some lbls) :
    ∀ x ∈ lbls, x = 0 ∨ x = 1 := by
  unfold BiasDetector.resolveLabels at h
  unfold BiasDetector.labelBinary01 at hbin
  by_cases hd : lc.dtype = Dtype.object
  · rw [if_pos hd] at h
    rw [if_pos hd] at hbin
    have hlen : (dedupF lc.values).length = 2 := by simpa using hbin
    rcases hu : dedupF lc.values with _ | ⟨a, _ | ⟨b, rest⟩⟩
    · rw [hu] at hlen; cases hlen
    · rw [hu] at hlen; cases hlen
    · have hrest : rest = [] := by
        rw [hu] at hlen
        simpa using hlen
      subst hrest
      rw [hu] at h
      have h' : some (lc.values.map (fun v => if v = a then 0 else 1)) = some lbls := h
      injection h' with h'
      subst h'
      intro x hx
      obtain ⟨v, _, rfl⟩ := List.mem_map.mp hx
      by_cases hv : v = a
      · rw [if_pos hv]; exact Or.inl rfl
      · rw [if_neg hv]; exact Or.inr rfl
  · rw [if_neg hd] at h
    rw [if_neg hd] at hbin
    injection h with h
    subst h
    intro x hx
    obtain ⟨v, hv, rfl⟩ := List.mem_map.mp hx
    have hall := List.all_eq_true.mp hbin v hv
    rcases Bool.or_eq_true_iff.mp hall with h0 | h1
    · exact Or.inl (eq_of_beq h0)
    · exact Or.inr (eq_of_beq h1)

theorem attrPairs_binary {ac : Col} {attr : String} {lbls : List ℚ}
    (hlab : ∀ x ∈ lbls, x = 0 ∨ x = 1) :
    ∀ p ∈ BiasDetector.attrPairs ac attr lbls, p.2 = 0 ∨ p.2 = 1 := by
  intro p hp
  unfold BiasDetector.attrPairs at hp
  split at hp
  · obtain ⟨q, hq, hf⟩ := List.mem_filterMap.mp hp
    obtain ⟨v, _, hv⟩ := Option.map_eq_some'.mp hf
    have hq2 : q.2 ∈ lbls := (List.of_mem_zip (by exact hq)).2
    have : p.2 = q.2 := by rw [← hv]
    rw [this]
    exact hlab q.2 hq2
  · have hq2 : p.2 ∈ lbls := (List.of_mem_zip (by exact hp)).2
    exact hlab p.2 hq2

theorem groupRows_rate_bounds {pairs : List (Cell × ℚ)}
    (hlab : ∀ p ∈ pairs, p.2 = 0 ∨ p.2 = 1) :
    ∀ g ∈ BiasDetector.groupRows pairs,
      0 ≤ g.approval_rate ∧ g.approval_rate ≤ 1 := by
  intro g hg
  unfold BiasDetector.groupRows at hg
  obtain ⟨k, hk, rfl⟩ := List.mem_map.mp hg
  have hkmem : k ∈ pairs.map Prod.fst := (mem_dedupF _ _).mp hk
  obtain ⟨p0, hp0, hp0k⟩ := List.mem_map.mp hkmem
  set grp := pairs.filter (fun p => p.1 = k) with hgrp
  have hp0grp : p0 ∈ grp := by
    rw [hgrp]
    exact List.mem_filter.mpr ⟨hp0, by simp [hp0k]⟩
  have hcnt : 0 < grp.length := List.length_pos.mpr (List.ne_nil_of_mem hp0grp)
  have hcntQ : (0 : ℚ) < (grp.length : ℚ) := by exact_mod_cast hcnt
  have hmem01 : ∀ x ∈ grp.map Prod.snd, x = 0 ∨ x = 1 := by
    intro x hx
    obtain ⟨p, hp, rfl⟩ := List.mem_map.mp hx
    exact hlab p (List.mem_of_mem_filter hp)
  have hs0 : 0 ≤ (grp.map Prod.snd).sum := by
    apply List.sum_nonneg
    intro x hx
    rcases hmem01 x hx with rfl | rfl
    · exact le_refl 0
    · exact zero_le_one
  have hs1 : (grp.map Prod.snd).sum ≤ (grp.length : ℚ) := by
    have := List.sum_le_card_nsmul (grp.map Prod.snd) 1 (by
      intro x hx
      rcases hmem01 x hx with rfl | rfl
      · exact zero_le_one
      · exact le_refl 1)
    rw [List.length_map] at this
    simpa [nsmul_eq_mul] using this
  constructor
  · exact round4_nonneg (div_nonneg hs0 (le_of_lt hcntQ))
  · exact round4_le_one ((div_le_one hcntQ).mpr hs1)

/-- C4: for a label column resolvable to binary 0/1 values, every group's
approval rate lies in [0, 1]; whenever the maximal group rate is positive,
the Disparate Impact Ratio (min rate / max rate) lies in [0, 1] and the
bias flag is raised exactly when the ratio is strictly below 4/5 (so a
ratio of exactly 4/5 is not flagged); and the ratio and flag are produced
precisely when the maximal rate is positive, so a zero maximal rate yields
no ratio and no flag. -/
theorem C4_disparate_impact (df : DFrame) (label attr : String) (lc : Col)
    (hlc : BiasDetector.findCol df label = some lc)
    (hbin : BiasDetector.labelBinary01 lc = true)
    (res : BiasDetector.AttrAnalysis)
    (hres : BiasDetector.analyzeAttr df label attr = some (some res)) :
    (∀ g ∈ res.groups, 0 ≤ g.approval_rate ∧ g.approval_rate ≤ 1) ∧
    (∀ r flag, res.disparate_impact = some (r, flag) →
      (0 ≤ r ∧ r ≤ 1) ∧ (flag = true ↔ r < 4/5)) ∧
    (∀ M, BiasDetector.listMax (res.groups.map BiasDetector.GroupStat.approval_rate) = some M →
      (0 < M ↔ res.disparate_impact.isSome = true)) := by
  unfold BiasDetector.analyzeAttr at hres
  rw [hlc] at hres
  cases hac : BiasDetector.findCol df attr with
  | none =>
    rw [hac] at hres
    exact Option.noConfusion
      (show (none : Option (Option BiasDetector.AttrAnalysis)) = some (some res) from hres)
  | some ac =>
    rw [hac] at hres
    have hres2 :
        (match BiasDetector.resolveLabels lc with
         | none => some none
         | some lbls =>
           some (some (⟨BiasDetector.groupRows (BiasDetector.attrPairs ac attr lbls),
             BiasDetector.dirOf ((BiasDetector.groupRows (BiasDetector.attrPairs ac attr lbls)).map
               BiasDetector.GroupStat.approval_rate)⟩ : BiasDetector.AttrAnalysis))) =
          some (some res) := hres
    clear hres
    cases hrl : BiasDetector.resolveLabels lc with
    | none =>
      rw [hrl] at hres2
      have h2 : some (none : Option BiasDetector.AttrAnalysis) = some (some res) := hres2
      exact Option.noConfusion (Option.some.inj h2)
    | some lbls =>
      rw [hrl] at hres2
      have h2 : some (some (⟨BiasDetector.groupRows (BiasDetector.attrPairs ac attr lbls),
          BiasDetector.dirOf ((BiasDetector.groupRows (BiasDetector.attrPairs ac attr lbls)).map
            BiasDetector.GroupStat.approval_rate)⟩ : BiasDetector.AttrAnalysis)) =
          some (some res) := hres2
      have h3 := Option.some.inj (Option.some.inj h2)
      subst h3
      have hlab := resolveLabels_binary hbin hrl
      have hpairs := @attrPairs_binary ac attr lbls hlab
      have hgb := groupRows_rate_bounds hpairs
      have hrates : ∀ r ∈ (BiasDetector.groupRows (BiasDetector.attrPairs ac attr lbls)).map
          BiasDetector.GroupStat.approval_rate, 0 ≤ r ∧ r ≤ 1 := by
        intro r hr
        obtain ⟨g, hgmem, rfl⟩ := List.mem_map.mp hr
        exact hgb g hgmem
      refine ⟨hgb, ?_, ?_⟩
      · intro r flag heq
        unfold BiasDetector.dirOf at heq
        cases hM : BiasDetector.listMax ((BiasDetector.groupRows (BiasDetector.attrPairs ac attr lbls)).map
            BiasDetector.GroupStat.approval_rate) with
        | none =>
          rw [hM] at heq
          cases hm : BiasDetector.listMin ((BiasDetector.groupRows (BiasDetector.attrPairs ac attr lbls)).map
              BiasDetector.GroupStat.approval_rate) with
          | none =>
            rw [hm] at heq
            exact Option.noConfusion (show (none : Option (ℚ × Bool)) = some (r, flag) from heq)
          | some m =>
            rw [hm] at heq
            exact Option.noConfusion (show (none : Option (ℚ × Bool)) = some (r, flag) from heq)
        | some M =>
          rw [hM] at heq
          cases hm : BiasDetector.listMin ((BiasDetector.groupRows (BiasDetector.attrPairs ac attr lbls)).map
              BiasDetector.GroupStat.approval_rate) with
          | none =>
            rw [hm] at heq
            exact Option.noConfusion (show (none : Option (ℚ × Bool)) = some (r, flag) from heq)
          | some m =>
            rw [hm] at heq
            have heq2 : (if 0 < M then some (m / M, decide (m / M < 4/5)) else none) =
                some (r, flag) := heq
            by_cases hMpos : 0 < M
            · rw [if_pos hMpos] at heq2
              obtain ⟨h1, hflag⟩ := Prod.mk.inj (Option.some.inj heq2)
              have hm0 : 0 ≤ m := (hrates m (listMin_mem hm)).1
              have hmM : m ≤ M := listMin_le hm M (listMax_mem hM)
              subst h1
              subst hflag
              refine ⟨⟨div_nonneg hm0 (le_of_lt hMpos), (div_le_one hMpos).mpr hmM⟩, ?_⟩
              exact decide_eq_true_iff
            · rw [if_neg hMpos] at heq2
              exact Option.noConfusion heq2
      · intro M hM
        unfold BiasDetector.dirOf
        rw [hM]
        have hne : ((BiasDetector.groupRows (BiasDetector.attrPairs ac attr lbls)).map
            BiasDetector.GroupStat.approval_rate) ≠ [] :=
          List.ne_nil_of_mem (listMax_mem hM)
        obtain ⟨m, hm⟩ := Option.isSome_iff_exists.mp (listMin_isSome_of_ne_nil hne)
        rw [hm]
        show 0 < M ↔ (if 0 < M then some (m / M, decide (m / M < 4/5)) else none).isSome = true
        by_cases hMpos : 0 < M
        · simp [hMpos]
        · simp [hMpos]

/-- C4 witness: the concrete dataset with rates 2/5 and 1/2 — a ratio of
exactly 4/5, not flagged. -/
theorem C4_witness :
    ((∀ r flag, biasAttrExpected.disparate_impact = some (r, flag) →
      (0 ≤ r ∧ r ≤ 1) ∧ (flag = true ↔ r < 4/5)) ∧
    biasAttrExpected.disparate_impact = some (4/5, false)) :=
  ⟨(C4_disparate_impact dfBias "approved" "gender" lcBias rfl (by decide)
      biasAttrExpected analyzeAttr_dfBias_eval).2.1, rfl⟩

/-! ### C3 -/

theorem uniquenessPerCol_isSome (n : ℕ) (cols : List Col) :
    (PrivacyAnalyzer.uniquenessPerCol n cols).isSome = true ↔
      (n ≠ 0 ∨ ∀ c ∈ cols, PrivacyAnalyzer.eligibleCol c = false) := by
  induction cols with
  | nil => simp [PrivacyAnalyzer.uniquenessPerCol]
  | cons c cs ih =>
    by_cases he : PrivacyAnalyzer.eligibleCol c = true
    · simp only [PrivacyAnalyzer.uniquenessPerCol, if_pos he]
      by_cases hn : n = 0
      · subst hn
        simp [pydiv, he]
      · have hb : ((n : ℚ)) ≠ 0 := Nat.cast_ne_zero.mpr hn
        simp [pydiv, hb, ih, hn]
    · simp only [PrivacyAnalyzer.uniquenessPerCol, if_neg he]
      rw [ih]
      have he' : PrivacyAnalyzer.eligibleCol c = false := by
        simpa using he
      simp [List.forall_mem_cons, he']

theorem uniquenessPerCol_no_eligible (n : ℕ) (cols : List Col)
    (h : ∀ c ∈ cols, PrivacyAnalyzer.eligibleCol c = false) :
    PrivacyAnalyzer.uniquenessPerCol n cols = some [] := by
  induction cols with
  | nil => rfl
  | cons c cs ih =>
    have hc := h c (List.mem_cons_self c cs)
    rw [PrivacyAnalyzer.uniquenessPerCol, if_neg (by simp [hc])]
    exact ih (fun c' hc' => h c' (List.mem_cons_of_mem c hc'))

theorem eligible_false_not_object {c : Col}
    (h : PrivacyAnalyzer.eligibleCol c = false) : c.dtype ≠ Dtype.object := by
  intro hobj
  simp [PrivacyAnalyzer.eligibleCol, hobj] at h

theorem detect_pii_no_object (df : DFrame)
    (h : ∀ c ∈ df.cols, c.dtype ≠ Dtype.object) :
    PrivacyAnalyzer.detect_pii df = [] := by
  unfold PrivacyAnalyzer.detect_pii
  rw [List.filterMap_eq_nil_iff]
  intro c hc
  rw [if_neg (h c hc)]

theorem comboEntry_no_eligible (df : DFrame)
    (h : ∀ c ∈ df.cols, PrivacyAnalyzer.eligibleCol c = false) :
    PrivacyAnalyzer.comboEntry df = [] := by
  have hfil : df.cols.filter (fun c => PrivacyAnalyzer.eligibleCol c) = [] := by
    rw [List.filter_eq_nil_iff]
    intro c hc
    simp [h c hc]
  unfold PrivacyAnalyzer.comboEntry PrivacyAnalyzer.importantCols
  rw [hfil]
  simp

theorem check_data_leakage_isSome (outputs : List String) (training : DFrame) :
    (PrivacyAnalyzer.check_data_leakage outputs training).isSome = true := by
  unfold PrivacyAnalyzer.check_data_leakage
  by_cases ht : 0 < (outputs.flatMap PrivacyAnalyzer.pysplit).length
  · rw [if_pos ht]
    unfold pydiv
    rw [if_neg (by exact_mod_cast Nat.pos_iff_ne_zero.mp ht)]
    rfl
  · rw [if_neg ht]
    rfl

/-- C3 (amended): the dataset analysis returns normally exactly when the
frame has rows or has no textual/numeric column (a zero-row frame with an
eligible column raises a division-by-zero); a frame without textual/numeric
columns yields empty PII and uniqueness findings (quasi-identifier findings
are name-based and may still be non-empty); the output analysis never
raises. -/
theorem C3_amended :
    (∀ df : DFrame, (PrivacyAnalyzer.analyze_dataset df).isSome = true ↔
      (df.nrows ≠ 0 ∨ ∀ c ∈ df.cols, PrivacyAnalyzer.eligibleCol c = false)) ∧
    (∀ df : DFrame, (∀ c ∈ df.cols, PrivacyAnalyzer.eligibleCol c = false) →
      ∃ r, PrivacyAnalyzer.analyze_dataset df = some r ∧
        r.pii_detected = [] ∧ r.uniqueness_risk = []) ∧
    (∀ (outs : List String) (td : Option DFrame),
      (PrivacyAnalyzer.analyze_model_outputs outs td).isSome = true) := by
  refine ⟨?_, ?_, ?_⟩
  · intro df
    have h := uniquenessPerCol_isSome df.nrows df.cols
    unfold PrivacyAnalyzer.analyze_dataset PrivacyAnalyzer.analyze_uniqueness
    cases hu : PrivacyAnalyzer.uniquenessPerCol df.nrows df.cols with
    | none =>
      rw [hu] at h
      simp only [Option.isSome_none, Bool.false_eq_true, false_iff] at h
      simpa using h
    | some u =>
      rw [hu] at h
      simp only [Option.isSome_some, true_iff] at h
      simpa using h
  · intro df h
    have hne : ∀ c ∈ df.cols, c.dtype ≠ Dtype.object :=
      fun c hc => eligible_false_not_object (h c hc)
    unfold PrivacyAnalyzer.analyze_dataset PrivacyAnalyzer.analyze_uniqueness
    rw [detect_pii_no_object df hne, uniquenessPerCol_no_eligible df.nrows df.cols h,
      comboEntry_no_eligible df h]
    exact ⟨_, rfl, rfl, rfl⟩
  · intro outs td
    cases td with
    | none => rfl
    | some tdf =>
      unfold PrivacyAnalyzer.analyze_model_outputs
      simpa using check_data_leakage_isSome outs tdf

/-- C3 counterexample: a zero-row DataFrame with one textual column makes
the dataset analysis raise (division by zero in the uniqueness step), and a
DataFrame whose only column is a non-textual, non-numeric column named
`age` still yields a non-empty quasi-identifier list. -/
theorem C3_counterexample :
    PrivacyAnalyzer.analyze_dataset dfZeroRows = none ∧
    (PrivacyAnalyzer.analyze_dataset dfAgeOther).map
      PrivacyAnalyzer.PrivacyResult.quasi_identifiers = some ["age"] := by
  exact ⟨rfl, rfl⟩

/-- C3 witness: the amended statement applied at concrete frames and
outputs. -/
theorem C3_witness :
    (PrivacyAnalyzer.analyze_dataset dfSmall).isSome = true ∧
    (∃ r, PrivacyAnalyzer.analyze_dataset dfAgeOther = some r ∧
      r.pii_detected = [] ∧ r.uniqueness_risk = []) ∧
    (PrivacyAnalyzer.analyze_model_outputs ["ok"] (some dfSmall)).isSome = true :=
  ⟨(C3_amended.1 dfSmall).mpr (Or.inl (by decide)),
   C3_amended.2.1 dfAgeOther (by decide),
   C3_amended.2.2 ["ok"] (some dfSmall)⟩

/-! ### C7 -/

theorem nodup_filter_count_one {α : Type} [DecidableEq α] (l : List α) :
    (l.filter (fun x => countEq l x = 1)).Nodup := by
  rw [List.nodup_iff_sublist]
  intro a hsub
  have hmem : a ∈ l.filter (fun x => countEq l x = 1) :=
    hsub.subset (List.mem_cons_self a [a])
  have hone : countEq l a = 1 := by
    simpa using (List.mem_filter.mp hmem).2
  have htwo : 2 ≤ countEq l a := by
    have h1 : List.Sublist [a, a] l := hsub.trans (List.filter_sublist l)
    have h2 : List.Sublist ([a, a].filter (fun x => x = a))
        (l.filter (fun x => x = a)) := h1.filter (fun x => decide (x = a))
    have h3 : [a, a].filter (fun x => decide (x = a)) = [a, a] := by simp
    have h4 := h2.length_le
    rw [h3] at h4
    exact h4
  rw [hone] at htwo
  exact absurd htwo (by norm_num)

theorem filter_count_one_le_dedupF {α : Type} [DecidableEq α] (l : List α) :
    (l.filter (fun x => countEq l x = 1)).length ≤ (dedupF l).length := by
  have hnd := nodup_filter_count_one l
  have hsub : l.filter (fun x => countEq l x = 1) ⊆ dedupF l := by
    intro a ha
    exact (mem_dedupF l a).mpr (List.mem_of_mem_filter ha)
  exact (hnd.subperm hsub).length_le

/-- C7 (amended): with at least one row and at least two eligible columns,
the combined-uniqueness entry equals the number of distinct row
combinations over the first three eligible columns divided by the row
count; this is an upper bound on the fraction of rows whose combination is
unique across the dataset (the two differ whenever a combination
repeats). -/
theorem C7_amended (df : DFrame) (hrows : 0 < df.nrows)
    (hcols : 2 ≤ (PrivacyAnalyzer.importantCols df).length) :
    (∃ per, PrivacyAnalyzer.analyze_uniqueness df =
      some (per ++ [("combination_2-3_cols",
        ((dedupF (PrivacyAnalyzer.comboRows df)).length : ℚ) / (df.nrows : ℚ))])) ∧
    specUniqueRowFraction df ≤
      ((dedupF (PrivacyAnalyzer.comboRows df)).length : ℚ) / (df.nrows : ℚ) := by
  constructor
  · have hsome : (PrivacyAnalyzer.uniquenessPerCol df.nrows df.cols).isSome = true :=
      (uniquenessPerCol_isSome _ _).mpr (Or.inl (Nat.pos_iff_ne_zero.mp hrows))
    obtain ⟨per, hper⟩ := Option.isSome_iff_exists.mp hsome
    refine ⟨per, ?_⟩
    unfold PrivacyAnalyzer.analyze_uniqueness
    rw [hper]
    unfold PrivacyAnalyzer.comboEntry
    rw [if_pos ⟨hrows, hcols⟩]
    rfl
  · have hn : (0:ℚ) < (df.nrows : ℚ) := by exact_mod_cast hrows
    have hle : ((PrivacyAnalyzer.comboRows df).filter
        (fun r => countEq (PrivacyAnalyzer.comboRows df) r = 1)).length ≤
        (dedupF (PrivacyAnalyzer.comboRows df)).length :=
      filter_count_one_le_dedupF _
    unfold specUniqueRowFraction
    exact (div_le_div_iff_of_pos_right hn).mpr (by exact_mod_cast hle)

/-- C7 counterexample: on three rows with combinations
`[a,x], [a,x], [b,y]` the source computes 2/3 (distinct combinations over
rows), while the fraction of rows whose combination is unique is 1/3. -/
theorem C7_counterexample :
    PrivacyAnalyzer.analyze_uniqueness dfCombo =
      some [("c1", 2/3), ("c2", 2/3), ("combination_2-3_cols", 2/3)] ∧
    specUniqueRowFraction dfCombo = 1/3 ∧ ((2 : ℚ)/3 ≠ 1/3) := by
  exact ⟨rfl, rfl, by norm_num⟩

/-- C7 witness: the amended statement at the concrete three-row frame. -/
theorem C7_witness :
    (∃ per, PrivacyAnalyzer.analyze_uniqueness dfCombo =
      some (per ++ [("combination_2-3_cols",
        ((dedupF (PrivacyAnalyzer.comboRows dfCombo)).length : ℚ) / (dfCombo.nrows : ℚ))])) ∧
    specUniqueRowFraction dfCombo ≤
      ((dedupF (PrivacyAnalyzer.comboRows dfCombo)).length : ℚ) / (dfCombo.nrows : ℚ) :=
  C7_amended dfCombo (by decide) (by decide)

/-! ### C9 -/

theorem prefix_space_split {nd a b : List Char} (hsp : ' ' ∉ nd)
    (h : nd <+: a ++ ' ' :: b) : nd <+: a := by
  induction a generalizing nd with
  | nil =>
    cases nd with
    | nil => exact List.nil_prefix
    | cons c t =>
      obtain ⟨r, hr⟩ := h
      rw [List.nil_append, List.cons_append] at hr
      injection hr with h1 h2
      subst h1
      exact absurd (List.mem_cons_self _ t) hsp
  | cons x a' ih =>
    cases nd with
    | nil => exact List.nil_prefix
    | cons c t =>
      obtain ⟨r, hr⟩ := h
      rw [List.cons_append, List.cons_append] at hr
      injection hr with h1 h2
      subst h1
      have hsp' : ' ' ∉ t := fun hm => hsp (List.mem_cons_of_mem _ hm)
      obtain ⟨r', hr'⟩ := ih hsp' ⟨r, h2⟩
      exact ⟨r', by rw [List.cons_append, hr']⟩

theorem infix_space_split {nd a b : List Char} (hsp : ' ' ∉ nd)
    (h : nd <:+: a ++ ' ' :: b) : nd <:+: a ∨ nd <:+: b := by
  induction a generalizing nd with
  | nil =>
    obtain ⟨p, s, hps⟩ := h
    rw [List.nil_append] at hps
    cases p with
    | nil =>
      cases nd with
      | nil => exact Or.inl List.nil_infix
      | cons c t =>
        rw [List.nil_append, List.cons_append] at hps
        injection hps with h1 h2
        subst h1
        exact absurd (List.mem_cons_self _ t) hsp
    | cons y p' =>
      rw [List.cons_append, List.cons_append] at hps
      injection hps with h1 h2
      exact Or.inr ⟨p', s, h2⟩
  | cons x a' ih =>
    obtain ⟨p, s, hps⟩ := h
    cases p with
    | nil =>
      have hpre : nd <+: (x :: a') ++ ' ' :: b := ⟨s, by simpa using hps⟩
      obtain ⟨r, hr⟩ := prefix_space_split hsp hpre
      exact Or.inl ⟨[], r, by simpa using hr⟩
    | cons y p' =>
      simp only [List.cons_append, List.append_assoc] at hps
      injection hps with h1 h2
      have hin : nd <:+: a' ++ ' ' :: b :=
        ⟨p', s, by rw [List.append_assoc]; exact h2⟩
      rcases ih hsp hin with hleft | hright
      · obtain ⟨p2, s2, h3⟩ := hleft
        exact Or.inl ⟨x :: p2, s2, by rw [List.cons_append, List.cons_append, h3]⟩
      · exact Or.inr hright

theorem joinSpace_data_cons (s t : String) (rest : List String) :
    (joinSpace (s :: t :: rest)).data = s.data ++ ' ' :: (joinSpace (t :: rest)).data := by
  show (s ++ " " ++ joinSpace (t :: rest)).data = _
  rw [String.data_append, String.data_append,
    show (" " : String).data = [' '] from rfl, List.append_assoc]
  rfl

theorem infix_joinSpace {nd : List Char} (hne : nd ≠ []) (hsp : ' ' ∉ nd) :
    ∀ L : List String, (nd <:+: (joinSpace L).data) ↔ ∃ s ∈ L, nd <:+: s.data := by
  intro L
  induction L with
  | nil =>
    constructor
    · intro h
      exact absurd (List.eq_nil_of_infix_nil h) hne
    · rintro ⟨s, hs, _⟩
      simp at hs
  | cons s rest ih =>
    cases rest with
    | nil =>
      constructor
      · intro h
        exact ⟨s, List.mem_cons_self s [], h⟩
      · rintro ⟨x, hx, hinf⟩
        rcases List.mem_cons.mp hx with rfl | hx'
        · exact hinf
        · simp at hx'
    | cons t rest' =>
      rw [joinSpace_data_cons]
      constructor
      · intro h
        rcases infix_space_split hsp h with h | h
        · exact ⟨s, List.mem_cons_self _ _, h⟩
        · obtain ⟨x, hx, hx2⟩ := ih.mp h
          exact ⟨x, List.mem_cons_of_mem _ hx, hx2⟩
      · rintro ⟨x, hx, hinf⟩
        rcases List.mem_cons.mp hx with rfl | hx'
        · obtain ⟨p, q, hpq⟩ := hinf
          exact ⟨p, q ++ ' ' :: (joinSpace (t :: rest')).data, by
            rw [← hpq]; simp⟩
        · obtain ⟨p, q, hpq⟩ := ih.mpr ⟨x, hx', hinf⟩
          exact ⟨s.data ++ ' ' :: p, q, by rw [← hpq]; simp⟩

theorem lowerStr_joinSpace : ∀ L : List String,
    lowerStr (joinSpace L) = joinSpace (L.map lowerStr) := by
  intro L
  induction L with
  | nil => rfl
  | cons s rest ih =>
    cases rest with
    | nil => rfl
    | cons t rest' =>
      apply String.ext
      have ihd : List.map Char.toLower (joinSpace (t :: rest')).data =
          (joinSpace ((t :: rest').map lowerStr)).data := congrArg String.data ih
      show List.map Char.toLower (joinSpace (s :: t :: rest')).data = _
      rw [joinSpace_data_cons s t rest', List.map_append, List.map_cons,
        show Char.toLower ' ' = ' ' from rfl, ihd]
      simp only [List.map_cons]
      rw [joinSpace_data_cons (lowerStr s) (lowerStr t) (rest'.map lowerStr)]
      rfl

theorem strContains_joinSpace_perm {L L' : List String} (hperm : L.Perm L')
    {n : String} (hne : n.data ≠ []) (hsp : ' ' ∉ n.data) :
    strContains (lowerStr (joinSpace L)) n = strContains (lowerStr (joinSpace L')) n := by
  unfold strContains
  rw [lowerStr_joinSpace, lowerStr_joinSpace]
  apply decide_eq_decide.mpr
  rw [infix_joinSpace hne hsp, infix_joinSpace hne hsp]
  constructor
  · rintro ⟨s, hs, h⟩
    exact ⟨s, (hperm.map lowerStr).mem_iff.mp hs, h⟩
  · rintro ⟨s, hs, h⟩
    exact ⟨s, (hperm.map lowerStr).mem_iff.mpr hs, h⟩

/-- C9 (amended): the name-heuristic hit counts are order-independent —
permuting a column's rows leaves `_detect_names`'s findings unchanged (each
lexicon name is space-free, so its presence in the space-joined text does
not depend on row order).  Per-pattern regex match counts are NOT
order-independent in general: the credit-card pattern can span the join
separator (see the counterexample). -/
theorem C9_amended (values values' : List Cell) (hperm : values.Perm values') :
    PrivacyAnalyzer.detect_names (joinSpace (values.map cellStr)) =
      PrivacyAnalyzer.detect_names (joinSpace (values'.map cellStr)) := by
  have hnames : ∀ n ∈ PrivacyAnalyzer.first_names ++ PrivacyAnalyzer.last_names,
      n.data ≠ [] ∧ ' ' ∉ n.data := by decide
  have hmap : (values.map cellStr).Perm (values'.map cellStr) := hperm.map cellStr
  have key : ∀ n ∈ PrivacyAnalyzer.first_names ++ PrivacyAnalyzer.last_names,
      strContains (lowerStr (joinSpace (values.map cellStr))) n =
      strContains (lowerStr (joinSpace (values'.map cellStr))) n := by
    intro n hn
    exact strContains_joinSpace_perm hmap (hnames n hn).1 (hnames n hn).2
  simp only [PrivacyAnalyzer.detect_names]
  have hf : PrivacyAnalyzer.first_names.filter
        (fun n => strContains (lowerStr (joinSpace (values.map cellStr))) n) =
      PrivacyAnalyzer.first_names.filter
        (fun n => strContains (lowerStr (joinSpace (values'.map cellStr))) n) :=
    List.filter_congr (fun n hn => key n (List.mem_append_left _ hn))
  have hl : PrivacyAnalyzer.last_names.filter
        (fun n => strContains (lowerStr (joinSpace (values.map cellStr))) n) =
      PrivacyAnalyzer.last_names.filter
        (fun n => strContains (lowerStr (joinSpace (values'.map cellStr))) n) :=
    List.filter_congr (fun n hn => key n (List.mem_append_right _ hn))
  rw [hf, hl]

/-- C9 witness: the amended statement at a concrete column and
permutation. -/
theorem C9_amended_witness :
    PrivacyAnalyzer.detect_names (joinSpace ([Cell.str "john", Cell.str "x"].map cellStr)) =
      PrivacyAnalyzer.detect_names (joinSpace ([Cell.str "x", Cell.str "john"].map cellStr)) :=
  C9_amended [Cell.str "john", Cell.str "x"] [Cell.str "x", Cell.str "john"]
    (List.Perm.swap _ _ _)

/-- C9 counterexample: permuting the rows of a textual column changes the
credit-card pattern's match count — the pattern can span the space that
joins consecutive cells, so the joined text of
`["1111 2222", "3333 4444", "x"]` has one match while the joined text of
the permutation `["1111 2222", "x", "3333 4444"]` has none. -/
theorem C9_counterexample :
    rowsCredit1.Perm rowsCredit2 ∧
    countMatches creditRE (joinSpace (rowsCredit1.map cellStr)) = 1 ∧
    countMatches creditRE (joinSpace (rowsCredit2.map cellStr)) = 0 :=
  ⟨List.Perm.cons _ (List.Perm.swap _ _ _), by decide, by decide⟩
